import Mathlib

/-
  Verification of the URL-shortener core (app/models.py, app/utils.py)
  against its natural-language specification.

  Shallow embedding conventions:
  * `URLStore` methods become functions `Store → args → result × Store`
    (explicit state passing for the mutable `self._urls` dict; the dict is
    modelled as an insertion-ordered association list with unique keys,
    which is exactly the observable behaviour of a Python dict here).
  * Wall-clock timestamps (`datetime.now(...).isoformat()`) are passed in
    as an explicit `now : String` argument.
  * `random.choice` draws are modelled by an oracle `rand : Nat → Nat`
    giving the index of each successive draw into the alphabet.
  * Python `re` matching is modelled by a small regular-expression type
    with predicate atoms and a Brzozowski-derivative matcher; the pattern
    term `urlPattern` mirrors the source regex literally (with
    `re.IGNORECASE` baked into the character predicates), and `pyMatch`
    models the pattern-final `$`: it matches at the end of the string or
    just before a single trailing newline.  The model restricts `\d` and
    `\S` to their ASCII meaning.
  * Python's `str.isalnum` is Unicode-aware; for one character that
    property is a parameter `alnum` of `is_valid_short_code` (the Unicode
    tables are outside the embedding, and the source consults them only
    through the per-character test), while `s.isalnum()` itself is
    modelled exactly: non-empty and every character alphanumeric.
-/

/-! ## Data model: app/models.py -/

/-- The per-code record stored in `URLStore._urls`
    (`{'url': ..., 'clicks': 0, 'created_at': ..., 'last_accessed': None}`). -/
structure UrlRecord where
  url : String
  clicks : Nat
  created_at : String
  last_accessed : Option String
deriving Repr, DecidableEq

/-- The `_urls` dict: insertion-ordered association list with unique keys. -/
abbrev Store := List (String × UrlRecord)

/-- Key lookup in the dict (`self._urls.get(short_code)`). -/
def getRecord : Store → String → Option UrlRecord
  | [], _ => none
  | (k, v) :: rest, c => if k = c then some v else getRecord rest c

/-- In-place update of the value stored at a key
    (`self._urls[short_code][...] = ...`). -/
def setRecord : Store → String → UrlRecord → Store
  | [], _, _ => []
  | (k, v) :: rest, c, r =>
      (if k = c then (c, r) else (k, v)) :: setRecord rest c r

namespace URLStore

/-- `URLStore.__init__`: the store starts empty. -/
def init : Store := []

/-- `URLStore.add_url`: insert a fresh record only when the code is absent;
    report whether the insert happened. -/
def add_url (s : Store) (short_code original_url now : String) : Bool × Store :=
  if (getRecord s short_code).isSome then
    (false, s)
  else
    (true, s ++ [(short_code,
      { url := original_url, clicks := 0, created_at := now,
        last_accessed := none })])

/-- `URLStore.get_url`: read-only lookup of the original URL. -/
def get_url (s : Store) (short_code : String) : Option String × Store :=
  ((getRecord s short_code).map (fun r => r.url), s)

/-- `URLStore.increment_clicks`: bump `clicks` and stamp `last_accessed`
    only when the code exists; report whether it did. -/
def increment_clicks (s : Store) (short_code now : String) : Bool × Store :=
  match getRecord s short_code with
  | none => (false, s)
  | some r =>
      (true, setRecord s short_code
        { r with clicks := r.clicks + 1, last_accessed := some now })

/-- The dict built and returned by `URLStore.get_stats`. -/
structure StatsData where
  url : String
  clicks : Nat
  created_at : String
  last_accessed : Option String
deriving Repr, DecidableEq

/-- `URLStore.get_stats`: read-only projection of a record. -/
def get_stats (s : Store) (short_code : String) : Option StatsData × Store :=
  ((getRecord s short_code).map (fun r =>
    { url := r.url, clicks := r.clicks, created_at := r.created_at,
      last_accessed := r.last_accessed }), s)

/-- `URLStore.get_existing_codes`: the set of keys. -/
def get_existing_codes (s : Store) : List String × Store :=
  (s.map (fun p => p.1), s)

/-- `URLStore.get_total_urls`: the number of stored mappings. -/
def get_total_urls (s : Store) : Nat × Store :=
  (s.length, s)

end URLStore

/-- One invocation of any public `URLStore` operation (used to state
    whole-interface invariants). -/
inductive StoreOp where
  | add (code url now : String)
  | get (code : String)
  | visit (code now : String)
  | stats (code : String)
  | codes
  | total

/-- The state left behind by one `URLStore` operation. -/
def applyOp (s : Store) : StoreOp → Store
  | .add c u t => (URLStore.add_url s c u t).2
  | .get c => (URLStore.get_url s c).2
  | .visit c t => (URLStore.increment_clicks s c t).2
  | .stats c => (URLStore.get_stats s c).2
  | .codes => (URLStore.get_existing_codes s).2
  | .total => (URLStore.get_total_urls s).2

/-- `n` consecutive visits (`increment_clicks`) to the same code, the `k`-th
    at timestamp `ts k`. -/
def visitN (s : Store) (c : String) (ts : Nat → String) : Nat → Store
  | 0 => s
  | n + 1 => (URLStore.increment_clicks (visitN s c ts n) c (ts n)).2

/-! ## Code generator: app/utils.py, generate_short_code -/

/-- `string.ascii_letters` from the Python standard library. -/
def ascii_letters : List Char :=
  "abcdefghijklmnopqrstuvwxyzABCDEFGHIJKLMNOPQRSTUVWXYZ".data

/-- `string.digits` from the Python standard library. -/
def string_digits : List Char := "0123456789".data

/-- `safe_chars = ''.join(c for c in chars if c not in '0Ol1I')` where
    `chars = string.ascii_letters + string.digits`. -/
def safe_chars : List Char :=
  (ascii_letters ++ string_digits).filter (fun c => !("0Ol1I".data.contains c))

/-- `max_attempts = 100`. -/
def max_attempts : Nat := 100

/-- One candidate code: `''.join(random.choice(safe_chars) for _ in
    range(length))`, where the oracle `rand` supplies the index of every
    successive `random.choice` draw (draw number `attempt * length + j`). -/
def draw_code (rand : Nat → Nat) (length attempt : Nat) : String :=
  String.mk ((List.range length).map (fun j =>
    safe_chars.getD (rand (attempt * length + j) % safe_chars.length) ' '))

/-- The `while attempt < max_attempts` loop of `generate_short_code`,
    with `fuel = max_attempts - attempt` remaining iterations. -/
def gen_loop (rand : Nat → Nat) (length : Nat) (existing : List String) :
    Nat → Nat → Except String String
  | _, 0 => Except.error "Unable to generate unique short code"
  | attempt, fuel + 1 =>
      let code := draw_code rand length attempt
      if existing.contains code then
        gen_loop rand length existing (attempt + 1) fuel
      else
        Except.ok code

/-- `generate_short_code(length=6, existing_codes=None)`; the raised
    `Exception` is modelled as `Except.error` with the source's message. -/
def generate_short_code (rand : Nat → Nat) (length : Nat)
    (existing_codes : Option (List String)) : Except String String :=
  gen_loop rand length (existing_codes.getD []) 0 max_attempts

/-! ## Validator: app/utils.py, is_valid_short_code -/

/-- Python's `s.isalnum()`: true exactly when `s` is non-empty and every
    character is alphanumeric, where the character-level (Unicode-aware)
    test is the parameter `alnum`. -/
def pyStrIsAlnum (alnum : Char → Bool) (s : List Char) : Bool :=
  !s.isEmpty && s.all alnum

/-- `is_valid_short_code`: non-empty, length ≥ 3, `code.isalnum()`;
    `alnum` is the per-character test behind `str.isalnum`. -/
def is_valid_short_code (alnum : Char → Bool) (code : String) : Bool :=
  if code.data.isEmpty then false
  else if code.length < 3 then false
  else pyStrIsAlnum alnum code.data

/-! ## Regular-expression machinery (model of Python `re` matching) -/

/-- A key found in a prefix is found in the whole list. -/
theorem getRecord_append_of_some (s t : Store) (c : String) (r : UrlRecord)
    (h : getRecord s c = some r) : getRecord (s ++ t) c = some r := by
  induction s with
  | nil => simp [getRecord] at h
  | cons p rest ih =>
      rcases p with ⟨k, v⟩
      by_cases hk : k = c
      · simp [getRecord, hk] at h ⊢; exact h
      · simp [getRecord, hk] at h ⊢; exact ih h

/-- Appending a fresh key makes it retrievable. -/
theorem getRecord_append_fresh (s : Store) (c : String) (r : UrlRecord)
    (h : getRecord s c = none) : getRecord (s ++ [(c, r)]) c = some r := by
  induction s with
  | nil => simp [getRecord]
  | cons p rest ih =>
      rcases p with ⟨k, v⟩
      by_cases hk : k = c
      · simp [getRecord, hk] at h
      · simp [getRecord, hk] at h ⊢; exact ih h

/-- Unfolding equation for `getRecord` on a cons cell. -/
theorem getRecord_cons (k : String) (v : UrlRecord) (rest : Store) (c : String) :
    getRecord ((k, v) :: rest) c =
      if k = c then some v else getRecord rest c := rfl

/-- Unfolding equation for `setRecord` on a cons cell. -/
theorem setRecord_cons (k : String) (v : UrlRecord) (rest : Store)
    (c : String) (r : UrlRecord) :
    setRecord ((k, v) :: rest) c r =
      (if k = c then (c, r) else (k, v)) :: setRecord rest c r := rfl

/-- A successful insert makes the fresh record retrievable. -/
theorem add_url_fresh (s : Store) (c u now : String)
    (h : (URLStore.add_url s c u now).1 = true) :
    getRecord (URLStore.add_url s c u now).2 c =
      some { url := u, clicks := 0, created_at := now,
             last_accessed := none } := by
  unfold URLStore.add_url at h ⊢
  by_cases hc : (getRecord s c).isSome
  · simp [hc] at h
  · simp only [hc, Bool.false_eq_true, if_false]
    exact getRecord_append_fresh s c _ (Option.not_isSome_iff_eq_none.mp hc)

/-- Updating a present key stores the new record. -/
theorem getRecord_setRecord_self (s : Store) (c : String) (r0 r : UrlRecord)
    (h : getRecord s c = some r0) : getRecord (setRecord s c r) c = some r := by
  induction s with
  | nil => simp [getRecord] at h
  | cons p rest ih =>
      rcases p with ⟨k, v⟩
      rw [setRecord_cons]
      by_cases hk : k = c
      · rw [if_pos hk, getRecord_cons, if_pos rfl]
      · rw [getRecord_cons, if_neg hk] at h
        rw [if_neg hk, getRecord_cons, if_neg hk]
        exact ih h

/-- Updating one key leaves every other key unchanged. -/
theorem getRecord_setRecord_ne (s : Store) (c c2 : String) (r : UrlRecord)
    (h : c2 ≠ c) : getRecord (setRecord s c r) c2 = getRecord s c2 := by
  induction s with
  | nil => simp [setRecord, getRecord]
  | cons p rest ih =>
      rcases p with ⟨k, v⟩
      rw [setRecord_cons]
      by_cases hk : k = c
      · subst hk
        rw [if_pos rfl, getRecord_cons, if_neg (Ne.symm h),
          getRecord_cons, if_neg (Ne.symm h)]
        exact ih
      · rw [if_neg hk, getRecord_cons, getRecord_cons]
        by_cases hk2 : k = c2
        · rw [if_pos hk2, if_pos hk2]
        · rw [if_neg hk2, if_neg hk2]
          exact ih

/-- One visit to a present code: success, clicks + 1, stamped. -/
theorem increment_present (s : Store) (c now : String) (r : UrlRecord)
    (h : getRecord s c = some r) :
    (URLStore.increment_clicks s c now).1 = true ∧
    getRecord (URLStore.increment_clicks s c now).2 c =
      some { r with clicks := r.clicks + 1, last_accessed := some now } := by
  unfold URLStore.increment_clicks
  rw [h]
  exact ⟨rfl, getRecord_setRecord_self s c r _ h⟩

/-- Every operation keeps a present record present with the same `url` and
    `created_at` and a click counter that has not decreased. -/
theorem op_preserves (s : Store) (op : StoreOp) (c : String) (r : UrlRecord)
    (h : getRecord s c = some r) :
    ∃ r2, getRecord (applyOp s op) c = some r2 ∧
      r2.url = r.url ∧ r2.created_at = r.created_at ∧ r.clicks ≤ r2.clicks := by
  cases op with
  | add c2 u t =>
      simp only [applyOp, URLStore.add_url]
      by_cases hc : (getRecord s c2).isSome
      · simp only [hc, if_true]
        exact ⟨r, h, rfl, rfl, Nat.le_refl _⟩
      · simp only [hc, if_false, Bool.false_eq_true]
        exact ⟨r, getRecord_append_of_some s _ c r h, rfl, rfl, Nat.le_refl _⟩
  | get c2 => exact ⟨r, h, rfl, rfl, Nat.le_refl _⟩
  | visit c2 t =>
      simp only [applyOp, URLStore.increment_clicks]
      rcases hc : getRecord s c2 with _ | r0
      · exact ⟨r, h, rfl, rfl, Nat.le_refl _⟩
      · by_cases hcc : c = c2
        · subst hcc
          rw [h] at hc
          injection hc with hc
          subst hc
          refine ⟨_, getRecord_setRecord_self s c r _ h, rfl, rfl, ?_⟩
          exact Nat.le_succ _
        · refine ⟨r, ?_, rfl, rfl, Nat.le_refl _⟩
          rw [getRecord_setRecord_ne s c2 c _ hcc]
          exact h
  | stats c2 => exact ⟨r, h, rfl, rfl, Nat.le_refl _⟩
  | codes => exact ⟨r, h, rfl, rfl, Nat.le_refl _⟩
  | total => exact ⟨r, h, rfl, rfl, Nat.le_refl _⟩

/-- `n` visits to a present code add exactly `n` clicks and keep `url` and
    `created_at`. -/
theorem visitN_clicks (s : Store) (c : String) (ts : Nat → String)
    (r : UrlRecord) (h : getRecord s c = some r) (n : Nat) :
    ∃ r2, getRecord (visitN s c ts n) c = some r2 ∧
      r2.clicks = r.clicks + n ∧ r2.url = r.url ∧
      r2.created_at = r.created_at := by
  induction n with
  | zero => exact ⟨r, h, rfl, rfl, rfl⟩
  | succ n ih =>
      obtain ⟨r2, h2, hck, hu, hca⟩ := ih
      refine ⟨{ r2 with clicks := r2.clicks + 1, last_accessed := some (ts n) },
        ?_, ?_, hu, hca⟩
      · exact (increment_present _ c (ts n) r2 h2).2
      · simp [hck, Nat.add_assoc]

/-! ## Claim theorems: the store -/

/-- C1: when `add_url(c, u)` returns true, an immediately following
    `get_url(c)` returns exactly `u`. -/
theorem add_then_get (s : Store) (c u now : String)
    (h : (URLStore.add_url s c u now).1 = true) :
    (URLStore.get_url (URLStore.add_url s c u now).2 c).1 = some u := by
  unfold URLStore.add_url at h ⊢
  by_cases hc : (getRecord s c).isSome
  · simp [hc] at h
  · simp only [hc, if_false, Bool.false_eq_true, URLStore.get_url]
    rw [getRecord_append_fresh s c _ (Option.not_isSome_iff_eq_none.mp hc)]
    rfl

/-- C1 witness: a concrete successful insert followed by a lookup. -/
theorem add_then_get_witness :
    (URLStore.get_url
      (URLStore.add_url URLStore.init "abc123" "https://www.example.com" "t0").2
      "abc123").1 = some "https://www.example.com" :=
  add_then_get URLStore.init "abc123" "https://www.example.com" "t0" (by decide)

/-- C4: `add_url` returns true exactly when the code is absent; on success
    the store gains exactly one fresh record (`clicks = 0`, `created_at`
    set now, `last_accessed` absent); on collision it returns false and the
    store is unchanged. -/
theorem add_url_spec (s : Store) (c u now : String) :
    ((URLStore.add_url s c u now).1 = true ↔ getRecord s c = none) ∧
    ((URLStore.add_url s c u now).1 = true →
      (URLStore.add_url s c u now).2 =
        s ++ [(c, { url := u, clicks := 0, created_at := now,
                    last_accessed := none })] ∧
      getRecord (URLStore.add_url s c u now).2 c =
        some { url := u, clicks := 0, created_at := now,
               last_accessed := none }) ∧
    ((URLStore.add_url s c u now).1 = false →
      (URLStore.add_url s c u now).2 = s) := by
  rcases hc : getRecord s c with _ | r
  · have hred : URLStore.add_url s c u now =
        (true, s ++ [(c, { url := u, clicks := 0, created_at := now,
                           last_accessed := none })]) := by
      unfold URLStore.add_url
      rw [hc]
      simp
    rw [hred]
    refine ⟨by simp [hc], fun _ => ⟨rfl, ?_⟩, fun hfalse => absurd hfalse (by simp)⟩
    exact getRecord_append_fresh s c _ hc
  · have hred : URLStore.add_url s c u now = (false, s) := by
      unfold URLStore.add_url
      rw [hc]
      simp
    rw [hred]
    exact ⟨by simp [hc], fun ht => absurd ht (by simp), fun _ => rfl⟩

/-- C4 witness: inserting a fresh code into the empty store, then
    re-inserting it. -/
theorem add_url_spec_witness :
    (URLStore.add_url URLStore.init "abc" "u" "t0").1 = true ∧
    (URLStore.add_url (URLStore.add_url URLStore.init "abc" "u" "t0").2
      "abc" "v" "t1").1 = false :=
  ⟨((add_url_spec URLStore.init "abc" "u" "t0").1).mpr (by decide),
   by
    have h := (add_url_spec (URLStore.add_url URLStore.init "abc" "u" "t0").2
      "abc" "v" "t1").1
    by_contra hb
    have := h.mp (by revert hb; decide)
    revert this; decide⟩

/-- C5: `increment_clicks` on a present code returns true, adds exactly one
    click, stamps `last_accessed`, and touches no other record; on an absent
    code it returns false and changes nothing; after an insert and `n`
    visits, `get_stats` reports exactly `n` clicks; and no operation ever
    decreases a click counter. -/
theorem increment_clicks_spec (s : Store) (c now : String) :
    (∀ r, getRecord s c = some r →
      (URLStore.increment_clicks s c now).1 = true ∧
      getRecord (URLStore.increment_clicks s c now).2 c =
        some { r with clicks := r.clicks + 1, last_accessed := some now } ∧
      ∀ c2, c2 ≠ c →
        getRecord (URLStore.increment_clicks s c now).2 c2 =
          getRecord s c2) ∧
    (getRecord s c = none → URLStore.increment_clicks s c now = (false, s)) ∧
    (∀ op r, getRecord s c = some r → ∃ r2,
      getRecord (applyOp s op) c = some r2 ∧ r.clicks ≤ r2.clicks) ∧
    (∀ u t0 ts n, (URLStore.add_url s c u t0).1 = true →
      (∀ k, (URLStore.increment_clicks
          (visitN (URLStore.add_url s c u t0).2 c ts k) c (ts k)).1 = true) ∧
      ∃ st, (URLStore.get_stats
          (visitN (URLStore.add_url s c u t0).2 c ts n) c).1 = some st ∧
        st.clicks = n) := by
  refine ⟨?_, ?_, ?_, ?_⟩
  · intro r h
    refine ⟨(increment_present s c now r h).1, (increment_present s c now r h).2, ?_⟩
    intro c2 hne
    unfold URLStore.increment_clicks
    rw [h]
    exact getRecord_setRecord_ne s c c2 _ hne
  · intro h
    unfold URLStore.increment_clicks
    rw [h]
  · intro op r h
    obtain ⟨r2, h1, _, _, h4⟩ := op_preserves s op c r h
    exact ⟨r2, h1, h4⟩
  · intro u t0 ts n hadd
    have hbase : getRecord (URLStore.add_url s c u t0).2 c =
        some { url := u, clicks := 0, created_at := t0,
               last_accessed := none } := add_url_fresh s c u t0 hadd
    constructor
    · intro k
      obtain ⟨rk, hrk, _, _, _⟩ := visitN_clicks _ c ts _ hbase k
      exact (increment_present _ c (ts k) rk hrk).1
    · obtain ⟨rn, hrn, hck, _, _⟩ := visitN_clicks _ c ts _ hbase n
      refine ⟨{ url := rn.url, clicks := rn.clicks, created_at := rn.created_at,
                last_accessed := rn.last_accessed }, ?_, ?_⟩
      · unfold URLStore.get_stats
        rw [hrn]
        rfl
      · simpa using hck

/-- C5 witness: one concrete visit to a present code. -/
theorem increment_clicks_spec_witness :
    (URLStore.increment_clicks
      [("abc", (⟨"u", 0, "t0", none⟩ : UrlRecord))] "abc" "t1").1 = true :=
  (((increment_clicks_spec
      [("abc", (⟨"u", 0, "t0", none⟩ : UrlRecord))] "abc" "t1").1)
    ⟨"u", 0, "t0", none⟩ (by decide)).1

/-- C6: `get_url` and `get_stats` leave the store state completely
    unchanged; in particular no record's click counter moves. -/
theorem reads_pure (s : Store) (c : String) :
    (URLStore.get_url s c).2 = s ∧ (URLStore.get_stats s c).2 = s ∧
    (∀ c2, (getRecord ((URLStore.get_url s c).2) c2).map (fun r => r.clicks) =
      (getRecord s c2).map (fun r => r.clicks)) ∧
    (∀ c2, (getRecord ((URLStore.get_stats s c).2) c2).map (fun r => r.clicks) =
      (getRecord s c2).map (fun r => r.clicks)) :=
  ⟨rfl, rfl, fun _ => rfl, fun _ => rfl⟩

/-- C7: every store operation preserves every present record's presence,
    `url`, and `created_at`; the code set only grows. -/
theorem store_presence_invariant (s : Store) (op : StoreOp) (c : String)
    (r : UrlRecord) (h : getRecord s c = some r) :
    ∃ r2, getRecord (applyOp s op) c = some r2 ∧
      r2.url = r.url ∧ r2.created_at = r.created_at := by
  obtain ⟨r2, h1, h2, h3, _⟩ := op_preserves s op c r h
  exact ⟨r2, h1, h2, h3⟩

/-- C7 witness: a visit operation keeps a concrete record's `url` and
    `created_at`. -/
theorem store_presence_invariant_witness :
    ∃ r2, getRecord (applyOp
      [("abc", (⟨"u", 0, "t0", none⟩ : UrlRecord))]
      (StoreOp.visit "abc" "t1")) "abc" = some r2 ∧
      r2.url = "u" ∧ r2.created_at = "t0" :=
  store_presence_invariant _ (StoreOp.visit "abc" "t1") "abc"
    ⟨"u", 0, "t0", none⟩ (by decide)

/-! ## Generator lemmas -/

/-- A drawn candidate has exactly the requested length. -/
theorem draw_code_length (rand : Nat → Nat) (length attempt : Nat) :
    (draw_code rand length attempt).length = length := by
  simp [draw_code, String.length]

/-- Every character of a drawn candidate comes from the safe alphabet. -/
theorem draw_code_mem (rand : Nat → Nat) (length attempt : Nat) :
    ∀ ch ∈ (draw_code rand length attempt).data, ch ∈ safe_chars := by
  intro ch hch
  have hch2 : ch ∈ (List.range length).map (fun j =>
      safe_chars.getD (rand (attempt * length + j) % safe_chars.length) ' ') :=
    hch
  obtain ⟨j, _, hj⟩ := List.mem_map.mp hch2
  have hlt : rand (attempt * length + j) % safe_chars.length <
      safe_chars.length := Nat.mod_lt _ (by decide)
  rw [List.getD_eq_getElem?_getD, List.getElem?_eq_getElem hlt] at hj
  rw [← hj]
  exact List.getElem_mem hlt

/-- Unfolding equation for one loop iteration of `generate_short_code`. -/
theorem gen_loop_succ (rand : Nat → Nat) (length : Nat)
    (existing : List String) (attempt fuel : Nat) :
    gen_loop rand length existing attempt (fuel + 1) =
      if existing.contains (draw_code rand length attempt) then
        gen_loop rand length existing (attempt + 1) fuel
      else Except.ok (draw_code rand length attempt) := rfl

/-- Every outcome of the generation loop: a good fresh code, or the
    exhaustion error. -/
theorem gen_loop_outcomes (rand : Nat → Nat) (length : Nat)
    (existing : List String) (fuel : Nat) : ∀ attempt,
    (∃ code, gen_loop rand length existing attempt fuel = Except.ok code ∧
       code.length = length ∧ (∀ ch ∈ code.data, ch ∈ safe_chars) ∧
       existing.contains code = false) ∨
    gen_loop rand length existing attempt fuel =
      Except.error "Unable to generate unique short code" := by
  induction fuel with
  | zero => intro attempt; right; rfl
  | succ fuel ih =>
      intro attempt
      by_cases hc : existing.contains (draw_code rand length attempt) = true
      · rw [gen_loop_succ, if_pos hc]
        exact ih (attempt + 1)
      · left
        refine ⟨draw_code rand length attempt, ?_,
          draw_code_length rand length attempt,
          draw_code_mem rand length attempt, by simpa using hc⟩
        rw [gen_loop_succ, if_neg hc]

/-! ## Claim theorems: generator and alphabet -/

/-- C3: `generate_short_code` either returns a code of exactly the requested
    length, drawn from the safe alphabet and absent from the avoid-set, or
    fails with the generation-exhausted error; nothing else. -/
theorem generate_short_code_outcomes (rand : Nat → Nat) (length : Nat)
    (existing_codes : Option (List String)) :
    (∃ code, generate_short_code rand length existing_codes =
        Except.ok code ∧
       code.length = length ∧ (∀ ch ∈ code.data, ch ∈ safe_chars) ∧
       (existing_codes.getD []).contains code = false) ∨
    generate_short_code rand length existing_codes =
      Except.error "Unable to generate unique short code" :=
  gen_loop_outcomes rand length (existing_codes.getD []) max_attempts 0

/-- C10: with the `None` default or an empty avoid-set, the first drawn
    candidate is returned immediately and the exhaustion error cannot
    happen. -/
theorem generate_first_draw (rand : Nat → Nat) (length : Nat)
    (h : 1 ≤ length) :
    generate_short_code rand length none =
      Except.ok (draw_code rand length 0) ∧
    generate_short_code rand length (some []) =
      Except.ok (draw_code rand length 0) ∧
    ∀ e, generate_short_code rand length none ≠ Except.error e := by
  have hstep : generate_short_code rand length none =
      Except.ok (draw_code rand length 0) := by
    show gen_loop rand length [] 0 max_attempts = _
    rw [show max_attempts = 99 + 1 from rfl, gen_loop_succ]
    rfl
  refine ⟨hstep, hstep, ?_⟩
  intro e he
  rw [hstep] at he
  exact Except.noConfusion he

/-- C10 witness: the default call at length 6 with a concrete oracle. -/
theorem generate_first_draw_witness :
    generate_short_code (fun _ => 0) 6 none =
      Except.ok (draw_code (fun _ => 0) 6 0) ∧
    generate_short_code (fun _ => 0) 6 (some []) =
      Except.ok (draw_code (fun _ => 0) 6 0) ∧
    ∀ e, generate_short_code (fun _ => 0) 6 none ≠ Except.error e :=
  generate_first_draw (fun _ => 0) 6 (by decide)

/-- C2 counterexample: the safe alphabet does not have 58 characters
    (it has 57: five characters are removed from the 62 alphanumerics). -/
theorem safe_chars_length_ne_58 : ¬ (safe_chars.length = 58) := by decide

/-- Every ASCII-alphanumeric character below codepoint 123 behaves the same
    under `isAlphanum` and membership in the 62-character list. -/
theorem alnum_range_eq : ∀ n ∈ List.range 123, (Char.ofNat n).isAlphanum =
    ((ascii_letters ++ string_digits).contains (Char.ofNat n)) := by
  set_option maxRecDepth 8000 in decide

/-- An alphanumeric character has codepoint below 123. -/
theorem toNat_lt_of_isAlphanum (c : Char) (h : c.isAlphanum = true) :
    c.toNat < 123 := by
  simp only [Char.isAlphanum, Char.isAlpha, Char.isUpper, Char.isLower,
    Char.isDigit, Bool.or_eq_true, Bool.and_eq_true, decide_eq_true_eq] at h
  have hb : c.toNat = c.val.toBitVec.toNat := rfl
  rcases h with (⟨h1, h2⟩ | ⟨h1, h2⟩) | ⟨h1, h2⟩ <;>
    · rw [UInt32.le_def] at h2
      have := BitVec.le_def.mp h2
      simp at this
      omega

/-- Membership in `ascii_letters ++ string_digits` is exactly
    `Char.isAlphanum`. -/
theorem mem_chars62_iff (c : Char) :
    c ∈ ascii_letters ++ string_digits ↔ c.isAlphanum = true := by
  constructor
  · intro h
    set_option maxRecDepth 8000 in fin_cases h <;> decide
  · intro h
    have hlt : c.toNat < 123 := toNat_lt_of_isAlphanum c h
    have heq := alnum_range_eq c.toNat (List.mem_range.mpr hlt)
    rw [Char.ofNat_toNat] at heq
    rw [h] at heq
    exact List.mem_of_elem_eq_true heq.symm

/-- C2 (amended): the safe alphabet is exactly the 62 alphanumeric
    characters minus the five ambiguous ones `0 O l 1 I`, and it has
    exactly 57 characters (not 58). -/
theorem safe_chars_spec :
    safe_chars.length = 57 ∧ safe_chars.Nodup ∧
    "0Ol1I".data.length = 5 ∧ "0Ol1I".data.Nodup ∧
    (∀ c ∈ "0Ol1I".data, c.isAlphanum = true) ∧
    (∀ c : Char, c ∈ safe_chars ↔
      (c.isAlphanum = true ∧ ¬ c ∈ "0Ol1I".data)) := by
  refine ⟨by decide, by set_option maxRecDepth 8000 in decide, by decide,
    by decide, by decide, ?_⟩
  intro c
  constructor
  · intro h
    have hf := List.mem_filter.mp h
    refine ⟨(mem_chars62_iff c).mp hf.1, ?_⟩
    intro hmem
    have : ("0Ol1I".data.contains c) = true := List.elem_eq_true_of_mem hmem
    rw [this] at hf
    exact absurd hf.2 (by decide)
  · intro ⟨h1, h2⟩
    refine List.mem_filter.mpr ⟨(mem_chars62_iff c).mpr h1, ?_⟩
    have : ("0Ol1I".data.contains c) = false := by
      by_contra hb
      rw [Bool.not_eq_false] at hb
      exact h2 (List.mem_of_elem_eq_true hb)
    rw [this]
    rfl

/-- C9: for any character-level alphanumeric property (in the source, the
    Unicode-aware one behind `str.isalnum`), `is_valid_short_code` accepts
    exactly the strings of length at least 3 all of whose characters
    satisfy it. -/
theorem is_valid_short_code_iff (alnum : Char → Bool) (code : String) :
    is_valid_short_code alnum code = true ↔
      (3 ≤ code.length ∧ ∀ ch ∈ code.data, alnum ch = true) := by
  unfold is_valid_short_code
  by_cases he : code.data.isEmpty
  · rw [if_pos he]
    have hlen : code.length = 0 := by
      simp [String.length, List.isEmpty_iff.mp he]
    constructor
    · intro h; exact absurd h (by simp)
    · intro ⟨h3, _⟩; omega
  · rw [if_neg he]
    by_cases hl : code.length < 3
    · rw [if_pos hl]
      constructor
      · intro h; exact absurd h (by simp)
      · intro ⟨h3, _⟩; omega
    · rw [if_neg hl]
      unfold pyStrIsAlnum
      have he2 : code.data.isEmpty = false := by simpa using he
      rw [he2, show (!false) = true from rfl, Bool.true_and,
        List.all_eq_true]
      constructor
      · intro h; exact ⟨by omega, h⟩
      · intro ⟨_, h⟩; exact h

/-! ## Regular-expression soundness -/

